import Mathlib

/-!
Verification of the measurement engine of `src/speedtest.js`: the server
catalog, target selection, the fetch primitive with redirect handling, the
latency probe, the sequential test runner and the statistics aggregation.
JavaScript numbers are modelled as rationals (`ℚ`), JS `null`/`undefined`
as `Option`, and rejected promises as `Except` values.
-/

namespace SpeedTestJS

/-- One test target of the server catalog: `{ name, url, size }`
(lines 31-61 of `src/speedtest.js`). -/
structure TestTarget where
  name : String
  url : String
  size : Nat
deriving Repr, DecidableEq

/-- The static `TEST_SERVERS` configuration object, lines 29-62 of
`src/speedtest.js`, as an association list in JS property order. -/
def TEST_SERVERS : List (String × List TestTarget) :=
  [ ("cloudflare",
      [ ⟨"Cloudflare 10MB", "https://speed.cloudflare.com/__down?bytes=10485760", 10⟩,
        ⟨"Cloudflare 100MB", "https://speed.cloudflare.com/__down?bytes=104857600", 100⟩ ]),
    ("cachefly",
      [ ⟨"CacheFly 10MB", "http://cachefly.cachefly.net/10mb.test", 10⟩,
        ⟨"CacheFly 100MB", "http://cachefly.cachefly.net/100mb.test", 100⟩ ]),
    ("linode",
      [ ⟨"Linode London", "http://speedtest.london.linode.com/100MB-london.bin", 100⟩,
        ⟨"Linode Newark", "http://speedtest.newark.linode.com/100MB-newark.bin", 100⟩,
        ⟨"Linode Frankfurt", "http://speedtest.frankfurt.linode.com/100MB-frankfurt.bin", 100⟩,
        ⟨"Linode Singapore", "http://speedtest.singapore.linode.com/100MB-singapore.bin", 100⟩ ]),
    ("vultr",
      [ ⟨"Vultr Amsterdam", "https://ams-nl-ping.vultr.com/vultr.com.100MB.bin", 100⟩,
        ⟨"Vultr Frankfurt", "https://fra-de-ping.vultr.com/vultr.com.100MB.bin", 100⟩,
        ⟨"Vultr London", "https://lon-gb-ping.vultr.com/vultr.com.100MB.bin", 100⟩,
        ⟨"Vultr Tokyo", "https://hnd-jp-ping.vultr.com/vultr.com.100MB.bin", 100⟩ ]),
    ("bunny",
      [ ⟨"Bunny CDN 10MB", "https://test.b-cdn.net/10mb.bin", 10⟩,
        ⟨"Bunny CDN 100MB", "https://test.b-cdn.net/100mb.bin", 100⟩ ]),
    ("scaleway",
      [ ⟨"Scaleway Paris 10MB", "https://scaleway.testdebit.info/10M/10M.iso", 100⟩,
        ⟨"Scaleway Paris 100MB", "https://scaleway.testdebit.info/100M/100M.iso", 10⟩ ]),
    ("ovh",
      [ ⟨"OVH 10MB", "https://proof.ovh.net/files/10Mb.dat", 10⟩,
        ⟨"OVH 100MB", "https://proof.ovh.net/files/100Mb.dat", 100⟩ ]) ]

/-- JS object property lookup `cat[key]` on an association list: the value of
the first (and, keys being distinct, only) entry with the given key. -/
def lookupKey (cat : List (String × List TestTarget)) (key : String) :
    Option (List TestTarget) :=
  (cat.find? (fun p => p.1 = key)).map (·.2)

/-- The lookup `TEST_SERVERS[serverKey]` of line 461. -/
def providerTargets (key : String) : Option (List TestTarget) :=
  lookupKey TEST_SERVERS key

/-- The size condition of line 463:
`!this.options.sizes || this.options.sizes.includes(server.size)`. -/
def sizeAllowed (sizes : Option (List Nat)) (size : Nat) : Bool :=
  match sizes with
  | none => true
  | some l => l.contains size

/-- The test-list construction of `SpeedTest.run`, lines 459-468 (the `main`
function repeats the same loop at lines 556-565): iterate the requested
server keys, skip unknown keys, and push every target of a known key whose
size passes the filter. -/
def buildTests (servers : List String) (sizes : Option (List Nat)) : List TestTarget :=
  servers.foldl (fun tests serverKey =>
    match providerTargets serverKey with
    | some serverList =>
        serverList.foldl (fun ts server =>
          if sizeAllowed sizes server.size then ts ++ [server] else ts) tests
    | none => tests) []

/-! ## HTTP fetch primitive (`makeRequest`, lines 131-196) -/

/-- The outcome resolved by `makeRequest` on success (lines 175-180):
byte count, wall-clock duration in seconds, and the two derived speeds. -/
structure FetchOutcome where
  bytes : Nat
  duration : ℚ
  speedMbps : ℚ
  speedMBps : ℚ
deriving Repr, DecidableEq

/-- The successful outcome built at lines 164-180: `totalBytes` accumulates
`chunk.length` over the received chunks (each chunk a list of bytes), and the
speeds are derived from the same `(totalBytes, duration)` pair:
`speedMbps = totalBytes*8/duration/1000000`,
`speedMBps = totalBytes/duration/1048576`. -/
def mkOutcome (chunks : List (List Nat)) (duration : ℚ) : FetchOutcome :=
  let totalBytes : Nat := chunks.foldl (fun acc c => acc + c.length) 0
  { bytes := totalBytes
    duration := duration
    speedMbps := totalBytes * 8 / duration / 1000000
    speedMBps := totalBytes / duration / 1048576 }

/-- The ways a `makeRequest` promise is rejected: a non-200/204 status
(line 160), the request timeout (line 191), or a transport-level error
(lines 183 and 188). -/
inductive FetchError where
  | httpStatus (code : Nat)
  | timedOut
  | transport (msg : String)
deriving Repr, DecidableEq

/-- The `err.message` string of the rejection, as stored into
`testResult.error` at line 312. -/
def FetchError.message : FetchError → String
  | .httpStatus code => "HTTP " ++ toString code
  | .timedOut => "Timeout"
  | .transport msg => msg

/-- What the network (through one fixed transport handle) does for one GET of
a URL with a given timeout: either a response with status code, optional
`Location` header, body chunks and wall-clock duration, or a transport error,
or no completion within the timeout. -/
inductive NetResponse where
  | reply (status : Nat) (location : Option String) (chunks : List (List Nat)) (duration : ℚ)
  | transportError (msg : String)
  | noCompletion
deriving Repr, DecidableEq

/-- A network behaviour: the response observed for each URL and timeout,
through the one transport handle of the run. -/
def Net : Type := String → Nat → NetResponse

/-- The redirect condition of line 152: `[301,302,307,308].includes(status)`. -/
def isRedirectStatus (s : Nat) : Prop :=
  s = 301 ∨ s = 302 ∨ s = 307 ∨ s = 308

instance (s : Nat) : Decidable (isRedirectStatus s) := by
  unfold isRedirectStatus; infer_instance

/-- Big-step semantics of `makeRequest url agent timeout` (lines 131-196):
`FetchStep net timeout url r` holds when the call settles with result `r`.
A redirect status with a `Location` header re-issues the request against the
redirect target with the same agent and timeout (lines 152-157), with no
depth cap — a cyclic redirect chain simply admits no derivation. A
non-redirected status other than 200/204 rejects with `HTTP <code>`
(lines 159-162); otherwise the chunks are counted and the outcome resolved
(lines 164-181). Transport errors and timeouts reject (lines 183-192). -/
inductive FetchStep (net : Net) (timeout : Nat) : String → Except FetchError FetchOutcome → Prop
  | redirect {url s loc ch d r} :
      net url timeout = .reply s (some loc) ch d →
      isRedirectStatus s →
      FetchStep net timeout loc r →
      FetchStep net timeout url r
  | httpError {url s loc ch d} :
      net url timeout = .reply s loc ch d →
      ¬(isRedirectStatus s ∧ loc.isSome) →
      s ≠ 200 → s ≠ 204 →
      FetchStep net timeout url (.error (.httpStatus s))
  | success {url s loc ch d} :
      net url timeout = .reply s loc ch d →
      ¬(isRedirectStatus s ∧ loc.isSome) →
      (s = 200 ∨ s = 204) →
      FetchStep net timeout url (.ok (mkOutcome ch d))
  | transportFail {url m} :
      net url timeout = .transportError m →
      FetchStep net timeout url (.error (.transport m))
  | timeoutFail {url} :
      net url timeout = .noCompletion →
      FetchStep net timeout url (.error .timedOut)

/-! ## Latency probe (`pingTest`, lines 199-209) -/

/-- Big-step semantics of `pingTest url agent` (lines 199-209): it awaits
`makeRequest` with a 5000ms timeout; on success it returns its own wall-clock
elapsed time (a measurement outside the model, hence an arbitrary `t`), and
any rejection is caught and turned into `null`. -/
inductive PingStep (net : Net) : String → Option ℚ → Prop
  | ok {url o t} :
      FetchStep net 5000 url (.ok o) →
      PingStep net url (some t)
  | caught {url e} :
      FetchStep net 5000 url (.error e) →
      PingStep net url none

/-! ## Per-target test (`testServer`, lines 240-320) -/

/-- One per-target result record, lines 241-250:
`{ name, url, size, ping, speedMbps, speedMBps, duration, error }`. -/
structure TestResult where
  name : String
  url : String
  size : Nat
  ping : Option ℚ
  speedMbps : ℚ
  speedMBps : ℚ
  duration : ℚ
  error : Option String
deriving Repr, DecidableEq

/-- What the environment hands one `testServer` call: the latency-probe
result for the target's URL and the settled `makeRequest` result. -/
structure ServerEnv where
  ping : Option ℚ
  fetch : Except FetchError FetchOutcome

/-- The call `testServer server agent showProgress=false` (lines 240-320, the branch
taken by `SpeedTest.run` at line 472): the record starts at its zero
defaults, `ping` is set from the probe regardless of outcome (line 259),
then on fetch success the speed and duration fields are copied from the
outcome (lines 306-309), and on rejection only `error` is set to the
message (line 312). -/
def testServer (env : ServerEnv) (server : TestTarget) : TestResult :=
  let base : TestResult :=
    { name := server.name, url := server.url, size := server.size
      ping := env.ping, speedMbps := 0, speedMBps := 0, duration := 0, error := none }
  match env.fetch with
  | .ok r =>
    { base with
      speedMbps := r.speedMbps
      speedMBps := r.speedMBps
      duration := r.duration }
  | .error e => { base with error := some e.message }

/-- An environment assigns each target the behaviour of its probe and
transfer. -/
def RunEnv : Type := TestTarget → ServerEnv

/-- The sequential test loop of `SpeedTest.run`, lines 471-474: one
`testServer` result pushed per entry of the test list, in order. -/
def runTests (env : RunEnv) (tests : List TestTarget) : List TestResult :=
  tests.foldl (fun results t => results ++ [testServer (env t) t]) []

/-- The full result sequence of a run with the given requested provider keys
and optional size filter. -/
def runAll (env : RunEnv) (servers : List String) (sizes : Option (List Nat)) :
    List TestResult :=
  runTests env (buildTests servers sizes)

/-! ## Statistics of `SpeedTest.run` (lines 476-491) -/

/-- The sum `speeds.reduce((a, b) => a + b, 0)` of line 482. -/
def sumQ (l : List ℚ) : ℚ := l.foldl (· + ·) 0

/-- The spread `Math.max(...speeds)` for the nonempty `speeds` list of line 483. -/
def maxQ (x : ℚ) (xs : List ℚ) : ℚ := xs.foldl max x

/-- The spread `Math.min(...speeds)` for the nonempty `speeds` list of line 484. -/
def minQ (x : ℚ) (xs : List ℚ) : ℚ := xs.foldl min x

/-- The `stats` object built at lines 480-487 when at least one result has no
error: `averageSpeed`, `maxSpeed`, `minSpeed`, and the names of the first
valid results whose `speedMbps` equals the max resp. the min. -/
structure Stats where
  averageSpeed : ℚ
  maxSpeed : ℚ
  minSpeed : ℚ
  bestServer : Option String
  worstServer : Option String
deriving Repr, DecidableEq

/-- The filter `results.filter(r => !r.error)` of line 477. -/
def validOf (results : List TestResult) : List TestResult :=
  results.filter (fun r => r.error = none)

/-- The statistics computation of lines 477-487: when no result is
error-free the `stats` object stays empty (modelled `none`); otherwise the
overall average, max, min and the first-match best/worst server names. -/
def computeStats (results : List TestResult) : Option Stats :=
  match validOf results with
  | [] => none
  | v :: vs =>
    let valid := v :: vs
    let speeds := valid.map (·.speedMbps)
    let maxSpeed := maxQ v.speedMbps (vs.map (·.speedMbps))
    let minSpeed := minQ v.speedMbps (vs.map (·.speedMbps))
    some { averageSpeed := sumQ speeds / speeds.length
           maxSpeed := maxSpeed
           minSpeed := minSpeed
           bestServer := (valid.find? (fun r => r.speedMbps = maxSpeed)).map (·.name)
           worstServer := (valid.find? (fun r => r.speedMbps = minSpeed)).map (·.name) }

/-- The object returned by `SpeedTest.run`, lines 488-491:
`{ results, statistics }`. -/
structure RunOutput where
  results : List TestResult
  statistics : Option Stats
deriving Repr, DecidableEq

/-- The method `SpeedTest.run` for a given environment, requested server keys and size
filter (lines 454-492). -/
def speedTestRun (env : RunEnv) (servers : List String) (sizes : Option (List Nat)) :
    RunOutput :=
  let results := runAll env servers sizes
  { results := results, statistics := computeStats results }

/-! ## Display-layer statistics (`displayStatistics`, lines 354-430)

These groupings are computed by `displayStatistics` for terminal output only;
they are needed here to compare what the run returns with what the display
layer can compute. -/

/-- The provider attribution of lines 383-385: the first catalog key whose
target list contains a target with the result's name (`undefined`, i.e.
`none`, when no catalog target matches). -/
def providerOf (name : String) : Option String :=
  (TEST_SERVERS.find? (fun p => p.2.any (fun s => s.name = name))).map (·.1)

/-- The `pings` list accumulated per provider at lines 386-391: pings of the
error-free results attributed to the provider, a ping being pushed only when
truthy (`if (result.ping)` at line 390 skips both `null` and `0`). -/
def providerPings (results : List TestResult) (p : Option String) : List ℚ :=
  (validOf results).filter (fun r => providerOf r.name = p)
    |>.filterMap (fun r =>
        match r.ping with
        | some q => if q = 0 then none else some q
        | none => none)

/-- The per-provider average ping of lines 396-397: mean of the accumulated
pings, or `null` when none were accumulated. -/
def providerAvgPing (results : List TestResult) (p : Option String) : Option ℚ :=
  let pings := providerPings results p
  if pings.length > 0 then some (sumQ pings / pings.length) else none

/-- The per-provider `speeds` list of lines 386-389 and its average
(line 395). -/
def providerSpeeds (results : List TestResult) (p : Option String) : List ℚ :=
  (validOf results).filter (fun r => providerOf r.name = p) |>.map (·.speedMbps)

/-- The per-size grouping of lines 403-410: speeds of the error-free results
whose `"{size}MB"` label matches. -/
def sizeSpeeds (results : List TestResult) (label : String) : List ℚ :=
  (validOf results).filter (fun r => toString r.size ++ "MB" = label)
    |>.map (·.speedMbps)

/-! ## The spec's wording of target selection

For comparison with `buildTests`: the spec describes the effective target
set as a filter **over the Catalog**, i.e. every catalog target, in catalog
order, whose provider key is in the requested set and whose size passes the
filter. -/

/-- Target selection as the spec words it, over an arbitrary catalog. -/
def specSelection (cat : List (String × List TestTarget)) (servers : List String)
    (sizes : Option (List Nat)) : List TestTarget :=
  cat.flatMap (fun p =>
    if p.1 ∈ servers then p.2.filter (fun t => sizeAllowed sizes t.size) else [])

/-- Target selection as the spec words it, over the catalog of the program. -/
def specCatalogSelection (servers : List String) (sizes : Option (List Nat)) :
    List TestTarget :=
  specSelection TEST_SERVERS servers sizes

/-- The per-key selection the code performs: the targets of one requested
key (none for an unknown key), size-filtered, in catalog order. -/
def keyTargets (key : String) (sizes : Option (List Nat)) : List TestTarget :=
  ((providerTargets key).getD []).filter (fun t => sizeAllowed sizes t.size)

/-- The per-key selection over an arbitrary catalog. -/
def keyTargetsIn (cat : List (String × List TestTarget)) (key : String)
    (sizes : Option (List Nat)) : List TestTarget :=
  ((lookupKey cat key).getD []).filter (fun t => sizeAllowed sizes t.size)

/-- The name, speed and error status of a result — the only inputs of the
statistics computation of lines 477-487. -/
def statsProj (r : TestResult) : String × ℚ × Option String :=
  (r.name, r.speedMbps, r.error)

/-- Name and speed of a result. -/
def nsProj (r : TestResult) : String × ℚ := (r.name, r.speedMbps)

/-! ## Concrete fixtures -/

/-- An environment in which every transfer times out and every probe fails. -/
def envTimeoutAll : RunEnv := fun _ => ⟨none, .error .timedOut⟩

/-- An error-free result for the CacheFly 10MB target with a given ping and
speed. -/
def resCF10 (p : Option ℚ) (speed : ℚ) : TestResult :=
  ⟨"CacheFly 10MB", "http://cachefly.cachefly.net/10mb.test", 10, p, speed, speed, 1, none⟩

/-- An error-free result for the CacheFly 100MB target with a given ping and
speed. -/
def resCF100 (p : Option ℚ) (speed : ℚ) : TestResult :=
  ⟨"CacheFly 100MB", "http://cachefly.cachefly.net/100mb.test", 100, p, speed, speed, 2, none⟩

/-- The CacheFly 10MB result with the size field replaced. -/
def resCF10size (size : Nat) : TestResult :=
  ⟨"CacheFly 10MB", "http://cachefly.cachefly.net/10mb.test", size, none, 100, 12, 1, none⟩

/-- "First element of the list, in input order, with property `q`, has name
`n`": the list splits around a named element satisfying `q` preceded only by
elements that do not. -/
def firstNameWith (l : List TestResult) (q : TestResult → Prop) (n : String) : Prop :=
  ∃ l1 r l2, l = l1 ++ r :: l2 ∧ r.name = n ∧ q r ∧ ∀ x ∈ l1, ¬ q x

/-- A network on which every URL answers 200 with two chunks. -/
def netOk : Net := fun _ _ => .reply 200 none [[1, 2], [3]] 2

/-- A network on which every connection is refused. -/
def netRefused : Net := fun _ _ => .transportError "connect ECONNREFUSED"

/-- A network on which `http://a/` answers 302 towards `http://b/`, which
answers 200 with one two-byte chunk. -/
def netRedirect : Net := fun u _ =>
  if u = "http://a/" then .reply 302 (some "http://b/") [] 1
  else if u = "http://b/" then .reply 200 none [[7, 7]] 2
  else .transportError "getaddrinfo ENOTFOUND"

/-! ## Helper lemmas: the shape of the test loop -/

theorem foldl_append_filter (p : TestTarget → Bool) (l : List TestTarget)
    (acc : List TestTarget) :
    l.foldl (fun ts server => if p server then ts ++ [server] else ts) acc =
      acc ++ l.filter p := by
  induction l generalizing acc with
  | nil => simp
  | cons x xs ih =>
    by_cases hx : p x <;> simp [List.foldl_cons, hx, ih, List.filter_cons]

theorem buildTests_acc (servers : List String) (sizes : Option (List Nat))
    (acc : List TestTarget) :
    servers.foldl (fun tests serverKey =>
      match providerTargets serverKey with
      | some serverList =>
          serverList.foldl (fun ts server =>
            if sizeAllowed sizes server.size then ts ++ [server] else ts) tests
      | none => tests) acc =
    acc ++ servers.flatMap (fun k => keyTargets k sizes) := by
  induction servers generalizing acc with
  | nil => simp
  | cons k ks ih =>
    rw [List.foldl_cons, List.flatMap_cons, ih]
    cases h : providerTargets k with
    | none => simp [keyTargets, h]
    | some serverList =>
      simp [h, foldl_append_filter, keyTargets, List.append_assoc]

theorem buildTests_eq_flatMap (servers : List String) (sizes : Option (List Nat)) :
    buildTests servers sizes = servers.flatMap (fun k => keyTargets k sizes) := by
  rw [buildTests, buildTests_acc]; rfl

theorem runTests_acc (env : RunEnv) (tests : List TestTarget) (acc : List TestResult) :
    tests.foldl (fun results t => results ++ [testServer (env t) t]) acc =
      acc ++ tests.map (fun t => testServer (env t) t) := by
  induction tests generalizing acc with
  | nil => simp
  | cons t ts ih => simp [List.foldl_cons, ih]

theorem runTests_eq_map (env : RunEnv) (tests : List TestTarget) :
    runTests env tests = tests.map (fun t => testServer (env t) t) := by
  rw [runTests, runTests_acc]; rfl

theorem runAll_eq_map (env : RunEnv) (servers : List String) (sizes : Option (List Nat)) :
    runAll env servers sizes =
      (buildTests servers sizes).map (fun t => testServer (env t) t) := by
  rw [runAll, runTests_eq_map]

/-! ## Helper lemmas: requested-order selection is a permutation of the
catalog-order selection (for duplicate-free requested keys) -/


theorem keyTargets_eq_keyTargetsIn (key : String) (sizes : Option (List Nat)) :
    keyTargets key sizes = keyTargetsIn TEST_SERVERS key sizes := rfl

theorem specSelection_cons_cat (a : String) (ts : List TestTarget)
    (cat : List (String × List TestTarget)) (keys : List String)
    (sizes : Option (List Nat)) :
    specSelection ((a, ts) :: cat) keys sizes =
      (if a ∈ keys then ts.filter (fun t => sizeAllowed sizes t.size) else []) ++
        specSelection cat keys sizes := by
  simp [specSelection, List.flatMap_cons]

theorem keyTargetsIn_cons (a : String) (ts : List TestTarget)
    (cat : List (String × List TestTarget)) (k : String) (sizes : Option (List Nat)) :
    keyTargetsIn ((a, ts) :: cat) k sizes =
      if a = k then ts.filter (fun t => sizeAllowed sizes t.size)
      else keyTargetsIn cat k sizes := by
  by_cases hak : a = k <;> simp [keyTargetsIn, lookupKey, List.find?_cons, hak]

theorem specSelection_nil (cat : List (String × List TestTarget))
    (sizes : Option (List Nat)) : specSelection cat [] sizes = [] := by
  induction cat with
  | nil => rfl
  | cons p cat ih =>
    obtain ⟨a, ts⟩ := p
    rw [specSelection_cons_cat, ih]
    simp

theorem specSelection_cons_not_key (cat : List (String × List TestTarget))
    (k : String) (ks : List String) (sizes : Option (List Nat))
    (hk : k ∉ cat.map Prod.fst) :
    specSelection cat (k :: ks) sizes = specSelection cat ks sizes := by
  induction cat with
  | nil => rfl
  | cons p cat ih =>
    obtain ⟨a, ts⟩ := p
    simp only [List.map_cons, List.mem_cons, not_or] at hk
    have hak : a ≠ k := fun h => hk.1 h.symm
    have hmem : (a ∈ k :: ks) ↔ (a ∈ ks) := by simp [List.mem_cons, hak]
    rw [specSelection_cons_cat, specSelection_cons_cat, ih hk.2]
    by_cases hm : a ∈ ks
    · rw [if_pos (hmem.mpr hm), if_pos hm]
    · rw [if_neg (fun h => hm (hmem.mp h)), if_neg hm]

theorem perm_shuffle (c K S : List TestTarget) :
    (c ++ (K ++ S)).Perm (K ++ (c ++ S)) := by
  have hcomm : (c ++ K).Perm (K ++ c) := List.perm_append_comm
  have h := hcomm.append_right S
  rw [List.append_assoc, List.append_assoc] at h
  exact h

theorem specSelection_cons_perm (cat : List (String × List TestTarget))
    (k : String) (ks : List String) (sizes : Option (List Nat))
    (hcat : (cat.map Prod.fst).Nodup) (hk : k ∉ ks) :
    (specSelection cat (k :: ks) sizes).Perm
      (keyTargetsIn cat k sizes ++ specSelection cat ks sizes) := by
  induction cat with
  | nil => simp [specSelection, keyTargetsIn, lookupKey]
  | cons p cat ih =>
    obtain ⟨a, ts⟩ := p
    simp only [List.map_cons, List.nodup_cons] at hcat
    rw [specSelection_cons_cat, specSelection_cons_cat, keyTargetsIn_cons]
    by_cases hak : a = k
    · subst hak
      rw [if_pos rfl, if_pos (List.mem_cons_self a ks), if_neg hk,
        specSelection_cons_not_key cat a ks sizes hcat.1]
      simp
    · rw [if_neg hak]
      by_cases haks : a ∈ ks
      · rw [if_pos (List.mem_cons_of_mem _ haks), if_pos haks]
        have ihp := (ih hcat.2).append_left (ts.filter (fun t => sizeAllowed sizes t.size))
        exact ihp.trans (perm_shuffle _ _ _)
      · have ha1 : a ∉ k :: ks := by simp [List.mem_cons, hak, haks]
        rw [if_neg ha1, if_neg haks]
        exact ih hcat.2

theorem flatMap_perm_specSelection (cat : List (String × List TestTarget))
    (keys : List String) (sizes : Option (List Nat))
    (hcat : (cat.map Prod.fst).Nodup) (hkeys : keys.Nodup) :
    (keys.flatMap (fun k => keyTargetsIn cat k sizes)).Perm
      (specSelection cat keys sizes) := by
  induction keys with
  | nil => simp [specSelection_nil]
  | cons k ks ih =>
    rw [List.nodup_cons] at hkeys
    rw [List.flatMap_cons]
    have h2 := specSelection_cons_perm cat k ks sizes hcat hkeys.1
    exact ((ih hkeys.2).append_left _).trans h2.symm

/-! ## Helper lemmas: folded maxima and minima -/

theorem le_maxQ_init (x : ℚ) (l : List ℚ) : x ≤ maxQ x l := by
  induction l generalizing x with
  | nil => exact le_refl x
  | cons y ys ih => exact le_trans (le_max_left x y) (ih (max x y))

theorem le_maxQ_of_mem {y : ℚ} {l : List ℚ} (x : ℚ) (hy : y ∈ l) : y ≤ maxQ x l := by
  induction l generalizing x with
  | nil => cases hy
  | cons z zs ih =>
    rcases List.mem_cons.mp hy with h | h
    · subst h
      exact le_trans (le_max_right x y) (le_maxQ_init (max x y) zs)
    · exact ih (max x z) h

theorem maxQ_mem (x : ℚ) (l : List ℚ) : maxQ x l = x ∨ maxQ x l ∈ l := by
  induction l generalizing x with
  | nil => exact Or.inl rfl
  | cons y ys ih =>
    rcases ih (max x y) with h | h
    · rcases max_choice x y with hc | hc
      · refine Or.inl ?_
        show List.foldl max x (y :: ys) = x
        rw [List.foldl_cons]
        exact h.trans hc
      · refine Or.inr (List.mem_cons.mpr (Or.inl ?_))
        show List.foldl max x (y :: ys) = y
        rw [List.foldl_cons]
        exact h.trans hc
    · exact Or.inr (List.mem_cons.mpr (Or.inr h))

theorem minQ_le_init (x : ℚ) (l : List ℚ) : minQ x l ≤ x := by
  induction l generalizing x with
  | nil => exact le_refl x
  | cons y ys ih => exact le_trans (ih (min x y)) (min_le_left x y)

theorem minQ_le_of_mem {y : ℚ} {l : List ℚ} (x : ℚ) (hy : y ∈ l) : minQ x l ≤ y := by
  induction l generalizing x with
  | nil => cases hy
  | cons z zs ih =>
    rcases List.mem_cons.mp hy with h | h
    · subst h
      exact le_trans (minQ_le_init (min x y) zs) (min_le_right x y)
    · exact ih (min x z) h

theorem minQ_mem (x : ℚ) (l : List ℚ) : minQ x l = x ∨ minQ x l ∈ l := by
  induction l generalizing x with
  | nil => exact Or.inl rfl
  | cons y ys ih =>
    rcases ih (min x y) with h | h
    · rcases min_choice x y with hc | hc
      · refine Or.inl ?_
        show List.foldl min x (y :: ys) = x
        rw [List.foldl_cons]
        exact h.trans hc
      · refine Or.inr (List.mem_cons.mpr (Or.inl ?_))
        show List.foldl min x (y :: ys) = y
        rw [List.foldl_cons]
        exact h.trans hc
    · exact Or.inr (List.mem_cons.mpr (Or.inr h))

/-! ## Helper lemmas: first-match search -/

theorem find?_first_split {α : Type} {p : α → Bool} {l : List α} {r : α}
    (h : l.find? p = some r) :
    p r = true ∧ ∃ l1 l2, l = l1 ++ r :: l2 ∧ ∀ x ∈ l1, p x = false := by
  induction l with
  | nil => cases h
  | cons x xs ih =>
    by_cases hx : p x
    · rw [List.find?_cons_of_pos _ hx] at h
      injection h with h
      subst h
      exact ⟨hx, [], xs, rfl, by intro y hy; cases hy⟩
    · rw [List.find?_cons_of_neg _ (by simpa using hx)] at h
      obtain ⟨hp, l1, l2, heq, hall⟩ := ih h
      refine ⟨hp, x :: l1, l2, by rw [heq]; rfl, ?_⟩
      intro y hy
      rcases List.mem_cons.mp hy with h | h
      · subst h; simpa using hx
      · exact hall y h

theorem find?_isSome_of_mem {α : Type} {p : α → Bool} {l : List α} {x : α}
    (hx : x ∈ l) (hp : p x = true) : (l.find? p).isSome := by
  induction l with
  | nil => cases hx
  | cons y ys ih =>
    by_cases hy : p y
    · rw [List.find?_cons_of_pos _ hy]; rfl
    · rw [List.find?_cons_of_neg _ (by simpa using hy)]
      rcases List.mem_cons.mp hx with h | h
      · subst h; exact absurd hp (by simpa using hy)
      · exact ih h

/-! ## Helper lemmas: the fetch relation -/

theorem fetchStep_ok_shape {net : Net} {t : Nat} {url : String}
    {r : Except FetchError FetchOutcome} (h : FetchStep net t url r) :
    ∀ o, r = Except.ok o → ∃ ch d, o = mkOutcome ch d := by
  induction h with
  | redirect _ _ _ ih => exact ih
  | httpError _ _ _ _ => intro o ho; simp at ho
  | success _ _ _ => intro o ho; injection ho with ho; exact ⟨_, _, ho.symm⟩
  | transportFail _ => intro o ho; simp at ho
  | timeoutFail _ => intro o ho; simp at ho

theorem fetchStep_det {net : Net} {t : Nat} :
    ∀ {url : String} {r1 r2 : Except FetchError FetchOutcome},
      FetchStep net t url r1 → FetchStep net t url r2 → r1 = r2 := by
  intro url r1 r2 h1
  induction h1 generalizing r2 with
  | @redirect url s loc ch d r hnet hs hrec ih =>
    intro h2
    cases h2 with
    | redirect hnet2 hs2 hrec2 =>
      have he := hnet.symm.trans hnet2
      injection he with hs' hloc' hch' hd'
      injection hloc' with hloc'
      subst hloc'
      exact ih hrec2
    | httpError hnet2 hcond2 =>
      have he := hnet.symm.trans hnet2
      injection he with hs' hloc' hch' hd'
      exact absurd ⟨hs' ▸ hs, by rw [← hloc']; rfl⟩ hcond2
    | success hnet2 hcond2 =>
      have he := hnet.symm.trans hnet2
      injection he with hs' hloc' hch' hd'
      exact absurd ⟨hs' ▸ hs, by rw [← hloc']; rfl⟩ hcond2
    | transportFail hnet2 => exact absurd (hnet.symm.trans hnet2) (by simp)
    | timeoutFail hnet2 => exact absurd (hnet.symm.trans hnet2) (by simp)
  | @httpError url s loc ch d hnet hcond hs200 hs204 =>
    intro h2
    cases h2 with
    | redirect hnet2 hs2 hrec2 =>
      have he := hnet.symm.trans hnet2
      injection he with hs' hloc' hch' hd'
      exact absurd ⟨hs'.symm ▸ hs2, by rw [hloc']; rfl⟩ hcond
    | httpError hnet2 hcond2 =>
      have he := hnet.symm.trans hnet2
      injection he with hs' hloc' hch' hd'
      rw [hs']
    | success hnet2 hcond2 hok =>
      have he := hnet.symm.trans hnet2
      injection he with hs' hloc' hch' hd'
      rcases hok with h | h
      · exact absurd (hs'.trans h) hs200
      · exact absurd (hs'.trans h) hs204
    | transportFail hnet2 => exact absurd (hnet.symm.trans hnet2) (by simp)
    | timeoutFail hnet2 => exact absurd (hnet.symm.trans hnet2) (by simp)
  | @success url s loc ch d hnet hcond hok =>
    intro h2
    cases h2 with
    | redirect hnet2 hs2 hrec2 =>
      have he := hnet.symm.trans hnet2
      injection he with hs' hloc' hch' hd'
      exact absurd ⟨hs'.symm ▸ hs2, by rw [hloc']; rfl⟩ hcond
    | httpError hnet2 hcond2 hs200 hs204 =>
      have he := hnet.symm.trans hnet2
      injection he with hs' hloc' hch' hd'
      rcases hok with h | h
      · exact absurd (hs'.symm.trans h) hs200
      · exact absurd (hs'.symm.trans h) hs204
    | success hnet2 hcond2 hok2 =>
      have he := hnet.symm.trans hnet2
      injection he with hs' hloc' hch' hd'
      rw [hch', hd']
    | transportFail hnet2 => exact absurd (hnet.symm.trans hnet2) (by simp)
    | timeoutFail hnet2 => exact absurd (hnet.symm.trans hnet2) (by simp)
  | @transportFail url m hnet =>
    intro h2
    cases h2 with
    | redirect hnet2 hs2 hrec2 => exact absurd (hnet.symm.trans hnet2) (by simp)
    | httpError hnet2 _ _ _ => exact absurd (hnet.symm.trans hnet2) (by simp)
    | success hnet2 _ _ => exact absurd (hnet.symm.trans hnet2) (by simp)
    | transportFail hnet2 =>
      have he := hnet.symm.trans hnet2
      injection he with hm
      rw [hm]
    | timeoutFail hnet2 => exact absurd (hnet.symm.trans hnet2) (by simp)
  | @timeoutFail url hnet =>
    intro h2
    cases h2 with
    | redirect hnet2 hs2 hrec2 => exact absurd (hnet.symm.trans hnet2) (by simp)
    | httpError hnet2 _ _ _ => exact absurd (hnet.symm.trans hnet2) (by simp)
    | success hnet2 _ _ => exact absurd (hnet.symm.trans hnet2) (by simp)
    | transportFail hnet2 => exact absurd (hnet.symm.trans hnet2) (by simp)
    | timeoutFail hnet2 => rfl

/-! ## Helper lemmas: what the returned statistics depend on -/


theorem validOf_nsProj_eq {rs1 rs2 : List TestResult}
    (h : rs1.map statsProj = rs2.map statsProj) :
    (validOf rs1).map nsProj = (validOf rs2).map nsProj := by
  induction rs1 generalizing rs2 with
  | nil =>
    cases rs2 with
    | nil => rfl
    | cons y ys => simp [statsProj] at h
  | cons x xs ih =>
    cases rs2 with
    | nil => simp [statsProj] at h
    | cons y ys =>
      simp only [List.map_cons, List.cons.injEq] at h
      obtain ⟨hhead, htail⟩ := h
      simp only [statsProj, Prod.mk.injEq] at hhead
      obtain ⟨hname, hspeed, herr⟩ := hhead
      simp only [validOf, List.filter_cons]
      by_cases he : x.error = none
      · rw [if_pos (by simpa using he), if_pos (by simp [← herr, he])]
        simp only [List.map_cons, List.cons.injEq]
        exact ⟨by simp [nsProj, hname, hspeed], ih htail⟩
      · rw [if_neg (by simpa using he), if_neg (by simp [← herr]; exact he)]
        exact ih htail

theorem map_speed_of_nsProj {l1 l2 : List TestResult}
    (h : l1.map nsProj = l2.map nsProj) :
    l1.map (·.speedMbps) = l2.map (·.speedMbps) := by
  have h2 := congrArg (List.map Prod.snd) h
  simpa [nsProj, List.map_map, Function.comp] using h2

theorem find?_speed_name_eq (m : ℚ) {l1 l2 : List TestResult}
    (h : l1.map nsProj = l2.map nsProj) :
    (l1.find? (fun r => r.speedMbps = m)).map (·.name) =
      (l2.find? (fun r => r.speedMbps = m)).map (·.name) := by
  induction l1 generalizing l2 with
  | nil =>
    cases l2 with
    | nil => rfl
    | cons y ys => simp [nsProj] at h
  | cons x xs ih =>
    cases l2 with
    | nil => simp [nsProj] at h
    | cons y ys =>
      simp only [List.map_cons, List.cons.injEq] at h
      obtain ⟨hhead, htail⟩ := h
      simp only [nsProj, Prod.mk.injEq] at hhead
      obtain ⟨hname, hspeed⟩ := hhead
      by_cases hm : x.speedMbps = m
      · rw [List.find?_cons_of_pos _ (by simpa using hm),
          List.find?_cons_of_pos _ (by simp [← hspeed, hm])]
        simp [hname]
      · rw [List.find?_cons_of_neg _ (by simpa using hm),
          List.find?_cons_of_neg _ (by simp [← hspeed]; exact hm)]
        exact ih htail

theorem computeStats_of_statsProj {rs1 rs2 : List TestResult}
    (h : rs1.map statsProj = rs2.map statsProj) :
    computeStats rs1 = computeStats rs2 := by
  have hv := validOf_nsProj_eq h
  rw [computeStats, computeStats]
  cases h1 : validOf rs1 with
  | nil =>
    cases h2 : validOf rs2 with
    | nil => rfl
    | cons y ys => rw [h1, h2] at hv; simp [nsProj] at hv
  | cons x xs =>
    cases h2 : validOf rs2 with
    | nil => rw [h1, h2] at hv; simp [nsProj] at hv
    | cons y ys =>
      rw [h1, h2] at hv
      simp only [List.map_cons, List.cons.injEq] at hv
      obtain ⟨hhead, htail⟩ := hv
      simp only [nsProj, Prod.mk.injEq] at hhead
      obtain ⟨hname, hspeed⟩ := hhead
      have hspeeds : xs.map (·.speedMbps) = ys.map (·.speedMbps) :=
        map_speed_of_nsProj htail
      have hconsProj : (x :: xs).map nsProj = (y :: ys).map nsProj := by
        simp only [List.map_cons, List.cons.injEq]
        exact ⟨by simp [nsProj, hname, hspeed], htail⟩
      have hmax : maxQ x.speedMbps (xs.map (·.speedMbps)) =
          maxQ y.speedMbps (ys.map (·.speedMbps)) := by rw [hspeed, hspeeds]
      have hmin : minQ x.speedMbps (xs.map (·.speedMbps)) =
          minQ y.speedMbps (ys.map (·.speedMbps)) := by rw [hspeed, hspeeds]
      have hall : (x :: xs).map (·.speedMbps) = (y :: ys).map (·.speedMbps) :=
        map_speed_of_nsProj hconsProj
      simp only [Option.some.injEq]
      have hbest := find?_speed_name_eq (maxQ y.speedMbps (ys.map (·.speedMbps))) hconsProj
      have hworst := find?_speed_name_eq (minQ y.speedMbps (ys.map (·.speedMbps))) hconsProj
      rw [Stats.mk.injEq]
      refine ⟨?_, ?_, ?_, ?_, ?_⟩
      · rw [hall]
      · exact hmax
      · exact hmin
      · rw [hmax]; exact hbest
      · rw [hmin]; exact hworst


/-! ## Claims -/

/-- C1 counterexample: the claim says the run produces the matching targets
in Catalog order, but `SpeedTest.run` iterates the *requested* key list
(line 460), so requesting `["vultr", "cloudflare"]` yields the four Vultr
targets before the two Cloudflare targets, while the Catalog lists
Cloudflare first. -/
theorem C1_counterexample :
    (runAll envTimeoutAll ["vultr", "cloudflare"] none).map (·.name) ≠
      (specCatalogSelection ["vultr", "cloudflare"] none).map (·.name) := by
  decide

/-- C1 (amended): target selection is a pure filter: the run produces
exactly one TestResult, via `testServer`, per occurrence of a requested
provider key per target of that key passing the size filter, ordered by the
requested key list (Catalog order within one key); an unknown provider key
contributes no targets and no error; and for a duplicate-free requested
list the selected targets are a permutation of the Catalog-order filter of
the spec. -/
theorem C1_target_selection (env : RunEnv) (servers : List String)
    (sizes : Option (List Nat)) :
    runAll env servers sizes =
        (servers.flatMap (fun k => keyTargets k sizes)).map
          (fun t => testServer (env t) t)
    ∧ (∀ k, k ∉ TEST_SERVERS.map Prod.fst → keyTargets k sizes = [])
    ∧ (servers.Nodup →
        (buildTests servers sizes).Perm (specCatalogSelection servers sizes)) := by
  refine ⟨?_, ?_, ?_⟩
  · rw [runAll_eq_map, buildTests_eq_flatMap]
  · intro k hk
    have hfind : TEST_SERVERS.find? (fun p => p.1 = k) = none := by
      rw [List.find?_eq_none]
      intro x hx
      simp only [decide_eq_true_eq]
      intro hxk
      exact hk (hxk ▸ List.mem_map_of_mem Prod.fst hx)
    simp [keyTargets, providerTargets, lookupKey, hfind]
  · intro hnd
    rw [buildTests_eq_flatMap]
    exact flatMap_perm_specSelection TEST_SERVERS servers sizes (by decide) hnd

theorem C1_target_selection_witness :
    (runAll envTimeoutAll ["vultr", "cloudflare"] none =
        ((["vultr", "cloudflare"].flatMap (fun k => keyTargets k none)).map
          (fun t => testServer (envTimeoutAll t) t)))
    ∧ keyTargets "unknownhost" none = []
    ∧ (buildTests ["vultr", "cloudflare"] none).Perm
        (specCatalogSelection ["vultr", "cloudflare"] none) :=
  ⟨(C1_target_selection envTimeoutAll ["vultr", "cloudflare"] none).1,
   (C1_target_selection envTimeoutAll ["vultr", "cloudflare"] none).2.1
     "unknownhost" (by decide),
   (C1_target_selection envTimeoutAll ["vultr", "cloudflare"] none).2.2 (by decide)⟩

/-- C10: the runner iterates the requested list without deduplicating
provider keys: each occurrence of a key contributes that key's matching
targets again, so `["cachefly", "cachefly"]` tests both CacheFly targets
twice, in order. -/
theorem C10_duplicate_keys (env : RunEnv) (k : String) (ks : List String)
    (sizes : Option (List Nat)) :
    runAll env (k :: ks) sizes =
        (keyTargets k sizes).map (fun t => testServer (env t) t) ++ runAll env ks sizes
    ∧ (runAll envTimeoutAll ["cachefly", "cachefly"] none).map (·.name) =
        ["CacheFly 10MB", "CacheFly 100MB", "CacheFly 10MB", "CacheFly 100MB"] := by
  constructor
  · rw [runAll_eq_map, runAll_eq_map, buildTests_eq_flatMap, buildTests_eq_flatMap,
      List.flatMap_cons, List.map_append]
  · decide

/-- C5: whenever a TestResult produced by `testServer` has its error field
set, its `speedMbps`, `speedMBps` and `duration` fields are still at their
zero defaults: the catch at lines 311-317 only ever sets `error`, and the
speed fields are only set on the success path. -/
theorem C5_error_implies_zero_speeds (env : ServerEnv) (server : TestTarget)
    (m : String) (h : (testServer env server).error = some m) :
    (testServer env server).speedMbps = 0 ∧ (testServer env server).speedMBps = 0 ∧
      (testServer env server).duration = 0 := by
  cases hf : env.fetch with
  | ok r => simp [testServer, hf] at h
  | error e => simp [testServer, hf]

theorem C5_error_implies_zero_speeds_witness :
    (testServer ⟨none, .error .timedOut⟩ ⟨"CacheFly 10MB", "u", 10⟩).error =
        some "Timeout"
    ∧ (testServer ⟨none, .error .timedOut⟩ ⟨"CacheFly 10MB", "u", 10⟩).speedMbps = 0
    ∧ (testServer ⟨none, .error .timedOut⟩ ⟨"CacheFly 10MB", "u", 10⟩).speedMBps = 0
    ∧ (testServer ⟨none, .error .timedOut⟩ ⟨"CacheFly 10MB", "u", 10⟩).duration = 0 :=
  ⟨rfl,
   C5_error_implies_zero_speeds ⟨none, .error .timedOut⟩ ⟨"CacheFly 10MB", "u", 10⟩
     "Timeout" rfl⟩

/-- C8: when no TestResult is error-free, the aggregation of lines 477-487
returns the explicit no-data state (the `stats` object stays empty): no
average, max, min, best or worst is produced and no division happens. -/
theorem C8_no_data_state (results : List TestResult)
    (h : ∀ r ∈ results, r.error ≠ none) :
    computeStats results = none := by
  have hval : validOf results = [] := by
    rw [validOf, List.filter_eq_nil_iff]
    intro r hr
    simpa using h r hr
  rw [computeStats, hval]

theorem C8_no_data_state_witness :
    computeStats [testServer ⟨none, .error .timedOut⟩ ⟨"CacheFly 10MB", "u", 10⟩] =
      none :=
  C8_no_data_state [testServer ⟨none, .error .timedOut⟩ ⟨"CacheFly 10MB", "u", 10⟩]
    (by decide)

/-- C2 counterexample: the statistics object returned by `SpeedTest.run`
(lines 477-491) does not contain the full AggregateStats. Two runs whose
results differ only in a ping value (resp. only in the nominal size field)
produce the *same* returned statistics, while the per-provider average
latency (resp. the per-size speed grouping) that `displayStatistics`
computes for terminal output differs — so neither can be part of the
returned object. -/
theorem C2_counterexample :
    computeStats [resCF10 (some 10) 100] = computeStats [resCF10 (some 20) 100]
    ∧ providerAvgPing [resCF10 (some 10) 100] (some "cachefly") ≠
        providerAvgPing [resCF10 (some 20) 100] (some "cachefly")
    ∧ computeStats [resCF10size 10] = computeStats [resCF10size 100]
    ∧ sizeSpeeds [resCF10size 10] "10MB" ≠ sizeSpeeds [resCF10size 100] "10MB" := by
  refine ⟨?_, ?_, ?_, ?_⟩
  · exact computeStats_of_statsProj (by decide)
  · have h1 : providerPings [resCF10 (some 10) 100] (some "cachefly") = [10] := by decide
    have h2 : providerPings [resCF10 (some 20) 100] (some "cachefly") = [20] := by decide
    simp only [providerAvgPing, h1, h2, sumQ, List.foldl_cons, List.foldl_nil,
      List.length_cons, List.length_nil, ne_eq, Option.some.injEq]
    norm_num
  · exact computeStats_of_statsProj (by decide)
  · decide

/-- C2 (amended): the object returned to callers is
`{ results, statistics }` where `statistics` is exactly the overall
aggregate of lines 477-487 computed from the run's results (absent when no
result is error-free), and that aggregate depends only on the name, speed
and error status of each result — the per-provider and per-size averages
(and any latency figure) of the display layer are not part of the returned
object. -/
theorem C2_returned_statistics (env : RunEnv) (servers : List String)
    (sizes : Option (List Nat)) :
    (speedTestRun env servers sizes).statistics =
        computeStats (speedTestRun env servers sizes).results
    ∧ (∀ rs1 rs2 : List TestResult, rs1.map statsProj = rs2.map statsProj →
        computeStats rs1 = computeStats rs2) :=
  ⟨rfl, fun _ _ h => computeStats_of_statsProj h⟩

theorem C2_returned_statistics_witness :
    (speedTestRun envTimeoutAll ["cachefly"] none).statistics =
        computeStats (speedTestRun envTimeoutAll ["cachefly"] none).results
    ∧ computeStats [resCF10 (some 10) 100] = computeStats [resCF10 (some 20) 100] :=
  ⟨(C2_returned_statistics envTimeoutAll ["cachefly"] none).1,
   (C2_returned_statistics envTimeoutAll ["cachefly"] none).2
     [resCF10 (some 10) 100] [resCF10 (some 20) 100] (by decide)⟩

/-- C4: every successful fetch outcome is `mkOutcome chunks duration` for
the chunks and duration of the final response, and its speeds satisfy
`speedMbps = bytes*8/duration/1000000` and
`speedMBps = bytes/duration/1048576`, both derived from the same
(bytes, duration) pair. -/
theorem C4_speed_formulas (net : Net) (timeout : Nat) (url : String)
    (o : FetchOutcome) (h : FetchStep net timeout url (.ok o)) :
    o.speedMbps = o.bytes * 8 / o.duration / 1000000 ∧
      o.speedMBps = o.bytes / o.duration / 1048576 := by
  obtain ⟨ch, d, rfl⟩ := fetchStep_ok_shape h o rfl
  exact ⟨rfl, rfl⟩


theorem C4_speed_formulas_witness :
    (mkOutcome [[1, 2], [3]] 2).speedMbps =
        (mkOutcome [[1, 2], [3]] 2).bytes * 8 / (mkOutcome [[1, 2], [3]] 2).duration /
          1000000
    ∧ (mkOutcome [[1, 2], [3]] 2).speedMBps =
        (mkOutcome [[1, 2], [3]] 2).bytes / (mkOutcome [[1, 2], [3]] 2).duration /
          1048576 :=
  C4_speed_formulas netOk 30000 "http://cachefly.cachefly.net/10mb.test" _
    (FetchStep.success rfl (by simp [isRedirectStatus]) (Or.inl rfl))

/-- C6: the latency probe never propagates a fetch failure: if the fetch
primitive fails on the URL (timeout, transport error such as a refused
connection, or bad status), the probe returns the absent latency, and the
absent latency is the only result it can return there. -/
theorem C6_ping_absent_on_failure (net : Net) (url : String) (e : FetchError)
    (h : FetchStep net 5000 url (.error e)) :
    PingStep net url none ∧ ∀ r, PingStep net url r → r = none := by
  refine ⟨PingStep.caught h, ?_⟩
  intro r hr
  cases hr with
  | ok hok => exact absurd (fetchStep_det hok h) (by simp)
  | caught _ => rfl


theorem C6_ping_absent_on_failure_witness :
    PingStep netRefused "https://www.gstatic.com/generate_204" none :=
  (C6_ping_absent_on_failure netRefused "https://www.gstatic.com/generate_204"
    (.transport "connect ECONNREFUSED") (FetchStep.transportFail rfl)).1

/-- C7: a response to `A` with status 301, 302, 307 or 308 and a `Location`
header naming `B` makes the fetch of `A` settle exactly as the fetch of `B`
through the same transport handle with the same timeout: the two calls admit
the same results, at any redirect depth. -/
theorem C7_redirect_transparent (net : Net) (timeout : Nat) (A B : String)
    (s : Nat) (ch : List (List Nat)) (d : ℚ)
    (hnet : net A timeout = .reply s (some B) ch d) (hs : isRedirectStatus s)
    (r : Except FetchError FetchOutcome) :
    FetchStep net timeout A r ↔ FetchStep net timeout B r := by
  constructor
  · intro h
    cases h with
    | redirect hnet2 hs2 hrec =>
      have he := hnet.symm.trans hnet2
      injection he with hs' hloc' hch' hd'
      injection hloc' with hloc'
      rw [hloc']
      exact hrec
    | httpError hnet2 hcond2 _ _ =>
      have he := hnet.symm.trans hnet2
      injection he with hs' hloc' hch' hd'
      exact absurd ⟨hs' ▸ hs, by rw [← hloc']; rfl⟩ hcond2
    | success hnet2 hcond2 _ =>
      have he := hnet.symm.trans hnet2
      injection he with hs' hloc' hch' hd'
      exact absurd ⟨hs' ▸ hs, by rw [← hloc']; rfl⟩ hcond2
    | transportFail hnet2 => exact absurd (hnet.symm.trans hnet2) (by simp)
    | timeoutFail hnet2 => exact absurd (hnet.symm.trans hnet2) (by simp)
  · exact FetchStep.redirect hnet hs


theorem C7_redirect_transparent_witness :
    FetchStep netRedirect 30000 "http://a/" (.ok (mkOutcome [[7, 7]] 2)) :=
  (C7_redirect_transparent netRedirect 30000 "http://a/" "http://b/" 302 [] 1
      (by decide) (by decide) (.ok (mkOutcome [[7, 7]] 2))).mpr
    (FetchStep.success rfl (by simp [isRedirectStatus]) (Or.inl rfl))

theorem foldl_length_acc (ch : List (List Nat)) (acc : Nat) :
    ch.foldl (fun a c => a + c.length) acc = acc + (ch.map List.length).sum := by
  induction ch generalizing acc with
  | nil => simp
  | cons c cs ih => simp [List.foldl_cons, ih, Nat.add_assoc]

/-- C9: on a successful fetch the outcome is `mkOutcome` of the received
chunks, whose byte count is the sum of the chunk lengths; and the outcome
depends on the chunks only through their lengths — two chunk sequences of
equal lengths yield the identical FetchOutcome, whatever their contents. -/
theorem C9_count_only (net : Net) (timeout : Nat) (url : String) :
    (∀ o : FetchOutcome, FetchStep net timeout url (.ok o) →
        ∃ ch d, o = mkOutcome ch d ∧ o.bytes = (ch.map List.length).sum)
    ∧ (∀ (ch1 ch2 : List (List Nat)) (d : ℚ),
        ch1.map List.length = ch2.map List.length →
          mkOutcome ch1 d = mkOutcome ch2 d) := by
  constructor
  · intro o h
    obtain ⟨ch, d, rfl⟩ := fetchStep_ok_shape h o rfl
    refine ⟨ch, d, rfl, ?_⟩
    show ch.foldl (fun a c => a + c.length) 0 = (ch.map List.length).sum
    rw [foldl_length_acc, Nat.zero_add]
  · intro ch1 ch2 d h
    have hb : ch1.foldl (fun a c => a + c.length) 0 =
        ch2.foldl (fun a c => a + c.length) 0 := by
      rw [foldl_length_acc, foldl_length_acc, h]
    simp [mkOutcome, hb]

theorem C9_count_only_witness :
    (∃ ch d, mkOutcome [[1, 2], [3]] 2 = mkOutcome ch d ∧
        (mkOutcome [[1, 2], [3]] 2).bytes = (ch.map List.length).sum)
    ∧ mkOutcome [[1, 2], [3]] 5 = mkOutcome [[9, 9], [0]] 5 :=
  ⟨(C9_count_only netOk 30000 "http://a/").1 _
      (FetchStep.success rfl (by simp [isRedirectStatus]) (Or.inl rfl)),
   (C9_count_only netOk 30000 "http://a/").2 [[1, 2], [3]] [[9, 9], [0]] 5 (by decide)⟩

theorem map_isSome {α β : Type} (f : α → β) (o : Option α) :
    (o.map f).isSome = o.isSome := by
  cases o <;> rfl

theorem computeStats_cons {results : List TestResult} {v : TestResult}
    {vs : List TestResult} (hv : validOf results = v :: vs) :
    computeStats results = some
      { averageSpeed := sumQ ((v :: vs).map (·.speedMbps)) /
          ((v :: vs).map (·.speedMbps)).length
        maxSpeed := maxQ v.speedMbps (vs.map (·.speedMbps))
        minSpeed := minQ v.speedMbps (vs.map (·.speedMbps))
        bestServer := ((v :: vs).find? (fun r =>
          r.speedMbps = maxQ v.speedMbps (vs.map (·.speedMbps)))).map (·.name)
        worstServer := ((v :: vs).find? (fun r =>
          r.speedMbps = minQ v.speedMbps (vs.map (·.speedMbps)))).map (·.name) } := by
  rw [computeStats, hv]

/-- C3: when at least one result is error-free, the aggregation produces the
arithmetic mean, the maximum and the minimum of the valid `speedMbps`
values, and the best (resp. worst) server name is the name of the first
valid result, in input order, whose speed equals the max (resp. the min);
in particular for two error-free results with speeds 50 and 200 the overall
average is 125, the max 200 with best the 200 result, and the min 50 with
worst the 50 result. -/
theorem C3_overall_statistics :
    (∀ results : List TestResult, validOf results ≠ [] →
      ∃ s, computeStats results = some s ∧
        s.averageSpeed = sumQ ((validOf results).map (·.speedMbps)) /
          ((validOf results).map (·.speedMbps)).length ∧
        s.maxSpeed ∈ (validOf results).map (·.speedMbps) ∧
        (∀ x ∈ (validOf results).map (·.speedMbps), x ≤ s.maxSpeed) ∧
        s.minSpeed ∈ (validOf results).map (·.speedMbps) ∧
        (∀ x ∈ (validOf results).map (·.speedMbps), s.minSpeed ≤ x) ∧
        s.bestServer.isSome ∧ s.worstServer.isSome ∧
        (∀ n, s.bestServer = some n →
          firstNameWith (validOf results) (fun r => r.speedMbps = s.maxSpeed) n) ∧
        (∀ n, s.worstServer = some n →
          firstNameWith (validOf results) (fun r => r.speedMbps = s.minSpeed) n))
    ∧ computeStats [resCF10 none 50, resCF100 none 200] =
        some ⟨125, 200, 50, some "CacheFly 100MB", some "CacheFly 10MB"⟩ := by
  constructor
  · intro results hval
    cases hv : validOf results with
    | nil => exact absurd hv hval
    | cons v vs =>
      refine ⟨_, computeStats_cons hv, ?_⟩
      dsimp only
      have hmaxmem : maxQ v.speedMbps (vs.map (·.speedMbps)) ∈
          (v :: vs).map (·.speedMbps) := by
        rcases maxQ_mem v.speedMbps (vs.map (·.speedMbps)) with h | h
        · rw [List.map_cons, h]; exact List.mem_cons_self _ _
        · rw [List.map_cons]; exact List.mem_cons_of_mem _ h
      have hminmem : minQ v.speedMbps (vs.map (·.speedMbps)) ∈
          (v :: vs).map (·.speedMbps) := by
        rcases minQ_mem v.speedMbps (vs.map (·.speedMbps)) with h | h
        · rw [List.map_cons, h]; exact List.mem_cons_self _ _
        · rw [List.map_cons]; exact List.mem_cons_of_mem _ h
      have hmaxub : ∀ x ∈ (v :: vs).map (·.speedMbps),
          x ≤ maxQ v.speedMbps (vs.map (·.speedMbps)) := by
        intro x hx
        rw [List.map_cons] at hx
        rcases List.mem_cons.mp hx with h | h
        · subst h; exact le_maxQ_init _ _
        · exact le_maxQ_of_mem _ h
      have hminlb : ∀ x ∈ (v :: vs).map (·.speedMbps),
          minQ v.speedMbps (vs.map (·.speedMbps)) ≤ x := by
        intro x hx
        rw [List.map_cons] at hx
        rcases List.mem_cons.mp hx with h | h
        · subst h; exact minQ_le_init _ _
        · exact minQ_le_of_mem _ h
      have hbestSome : (((v :: vs).find? (fun r =>
          r.speedMbps = maxQ v.speedMbps (vs.map (·.speedMbps)))).map (·.name)).isSome := by
        obtain ⟨r, hrmem, hrspeed⟩ := List.mem_map.mp hmaxmem
        rw [map_isSome]
        exact find?_isSome_of_mem hrmem (by simp [hrspeed])
      have hworstSome : (((v :: vs).find? (fun r =>
          r.speedMbps = minQ v.speedMbps (vs.map (·.speedMbps)))).map (·.name)).isSome := by
        obtain ⟨r, hrmem, hrspeed⟩ := List.mem_map.mp hminmem
        rw [map_isSome]
        exact find?_isSome_of_mem hrmem (by simp [hrspeed])
      refine ⟨rfl, hmaxmem, hmaxub, hminmem, hminlb, hbestSome, hworstSome, ?_, ?_⟩
      · intro n hn
        obtain ⟨r, hfind, hname⟩ := Option.map_eq_some'.mp hn
        obtain ⟨hp, l1, l2, heq, hall⟩ := find?_first_split hfind
        refine ⟨l1, r, l2, heq, hname, by simpa using hp, ?_⟩
        intro x hx
        simpa using hall x hx
      · intro n hn
        obtain ⟨r, hfind, hname⟩ := Option.map_eq_some'.mp hn
        obtain ⟨hp, l1, l2, heq, hall⟩ := find?_first_split hfind
        refine ⟨l1, r, l2, heq, hname, by simpa using hp, ?_⟩
        intro x hx
        simpa using hall x hx
  · have hv : validOf [resCF10 none 50, resCF100 none 200] =
        [resCF10 none 50, resCF100 none 200] := rfl
    rw [computeStats_cons hv]
    have hmax : maxQ (resCF10 none 50).speedMbps
        ([resCF100 none 200].map (·.speedMbps)) = 200 := by
      show max (50 : ℚ) 200 = 200
      exact max_eq_right (by norm_num)
    have hmin : minQ (resCF10 none 50).speedMbps
        ([resCF100 none 200].map (·.speedMbps)) = 50 := by
      show min (50 : ℚ) 200 = 50
      exact min_eq_left (by norm_num)
    simp only [Option.some.injEq, Stats.mk.injEq, hmax, hmin]
    refine ⟨?_, trivial, trivial, ?_, ?_⟩
    · show sumQ [(50 : ℚ), 200] / (2 : ℕ) = 125
      rw [sumQ, List.foldl_cons, List.foldl_cons, List.foldl_nil]
      norm_num
    · rw [List.find?_cons_of_neg _ (by norm_num [resCF10]),
        List.find?_cons_of_pos _ (by norm_num [resCF100])]
      rfl
    · rw [List.find?_cons_of_pos _ (by norm_num [resCF10])]
      rfl

theorem C3_overall_statistics_witness :
    validOf [resCF10 none 50, resCF100 none 200] ≠ [] ∧
    (∃ s, computeStats [resCF10 none 50, resCF100 none 200] = some s ∧
      s.averageSpeed =
        sumQ ((validOf [resCF10 none 50, resCF100 none 200]).map (·.speedMbps)) /
          ((validOf [resCF10 none 50, resCF100 none 200]).map (·.speedMbps)).length ∧
      s.maxSpeed ∈ (validOf [resCF10 none 50, resCF100 none 200]).map (·.speedMbps) ∧
      (∀ x ∈ (validOf [resCF10 none 50, resCF100 none 200]).map (·.speedMbps),
        x ≤ s.maxSpeed) ∧
      s.minSpeed ∈ (validOf [resCF10 none 50, resCF100 none 200]).map (·.speedMbps) ∧
      (∀ x ∈ (validOf [resCF10 none 50, resCF100 none 200]).map (·.speedMbps),
        s.minSpeed ≤ x) ∧
      s.bestServer.isSome ∧ s.worstServer.isSome ∧
      (∀ n, s.bestServer = some n →
        firstNameWith (validOf [resCF10 none 50, resCF100 none 200])
          (fun r => r.speedMbps = s.maxSpeed) n) ∧
      (∀ n, s.worstServer = some n →
        firstNameWith (validOf [resCF10 none 50, resCF100 none 200])
          (fun r => r.speedMbps = s.minSpeed) n)) :=
  ⟨by simp [validOf, resCF10, resCF100],
   C3_overall_statistics.1 [resCF10 none 50, resCF100 none 200]
     (by simp [validOf, resCF10, resCF100])⟩

end SpeedTestJS
